import Mathlib

/-!
Shallow embedding of `certbot/hooks.py` (facilities for implementing hooks
that call shell commands).

Python side effects are made explicit:
* module-level mutable state (`pre_hook.already`, `post_hook.eventually`),
  `os.environ`, the log stream, and the trace of subprocess invocations are
  collected in a `HookState` record that every function threads through;
* a Python exception propagating out of a function is an `Except.error`
  (paired with the state reached so far, since Python side effects performed
  before the raise persist);
* external collaborators are parameters: the subprocess runner (`Executor`,
  i.e. `Popen`), the filesystem (`FS`, i.e. `os.listdir` / `certbot.util.is_exe`),
  and executable resolution (`ExeWorld`, i.e. `certbot.util.exe_exists`,
  `certbot.plugins.util.path_surgery`, `os.path.exists`).
-/

namespace Certbot

/-- Python exceptions that can escape the functions of `hooks.py`.
`hookCommandNotFound` is `certbot.errors.HookCommandNotFound` (the only
error class `hooks.py` itself raises); `indexError` models `[0]` on an empty
list, `keyError` models `os.environ["PATH"]` with `PATH` unset, and
`osError` models `os.listdir` on a missing directory. -/
inductive PyErr where
  | indexError : PyErr
  | keyError : String → PyErr
  | osError : String → PyErr
  | hookCommandNotFound : String → PyErr
deriving DecidableEq, Repr

/-- The Python class name of an exception, as the interpreter reports it. -/
def pyErrClassName : PyErr → String
  | .indexError => "IndexError"
  | .keyError _ => "KeyError"
  | .osError _ => "OSError"
  | .hookCommandNotFound _ => "HookCommandNotFound"

/-- Logging levels used by `hooks.py` (`logger.info` / `warning` / `error`). -/
inductive LogLevel where
  | info : LogLevel
  | warning : LogLevel
  | error : LogLevel
deriving DecidableEq, Repr

structure LogEntry where
  level : LogLevel
  msg : String
deriving DecidableEq, Repr

/-- Result of running one shell command: captured stdout, stderr, exit code
(`Popen.communicate` plus `returncode`). -/
structure ExecResult where
  out : String
  err : String
  returncode : Int
deriving DecidableEq, Repr

/-- The external subprocess runner: what `Popen(shell_cmd, shell=True, ...)`
followed by `communicate()` produces for a given command string. -/
def Executor : Type := String → ExecResult

/-- A record of one Executor invocation: the command string and the process
environment (`os.environ`) visible to the subprocess at invocation time. -/
structure Call where
  cmd : String
  env : List (String × String)
deriving DecidableEq, Repr

/-- The process-wide mutable state of `hooks.py`:
`already` is `pre_hook.already`, `eventually` is `post_hook.eventually`,
`env` is `os.environ` (an association list, first binding wins),
`log` is the emitted log stream, `calls` the trace of Executor invocations. -/
structure HookState where
  already : List String
  eventually : List String
  env : List (String × String)
  log : List LogEntry
  calls : List Call
deriving DecidableEq, Repr

def HookState.logInfo (s : HookState) (m : String) : HookState :=
  { s with log := s.log ++ [⟨.info, m⟩] }

def HookState.logWarning (s : HookState) (m : String) : HookState :=
  { s with log := s.log ++ [⟨.warning, m⟩] }

def HookState.logError (s : HookState) (m : String) : HookState :=
  { s with log := s.log ++ [⟨.error, m⟩] }

/-- The command strings of the Executor invocations performed so far,
in order. -/
def cmds (s : HookState) : List String := s.calls.map Call.cmd

/-- `os.environ[k]` as a lookup: `none` when the variable is unset. -/
def envGet (env : List (String × String)) (k : String) : Option String :=
  (env.find? (fun p => p.1 = k)).map Prod.snd

/-- `os.environ[k] = v`: bind `k` to `v`, shadowing any previous binding. -/
def envSet (env : List (String × String)) (k v : String) : List (String × String) :=
  (k, v) :: env.filter (fun p => p.1 ≠ k)

/-- First whitespace-delimited token of a string:
`shell_cmd.split(None, 1)[0]` succeeds exactly when the string has a
non-whitespace character, i.e. when this returns `some`. -/
def firstToken (s : String) : Option String :=
  match s.toList.dropWhile Char.isWhitespace with
  | [] => none
  | c :: cs => some ⟨(c :: cs).takeWhile (fun ch => ¬ ch.isWhitespace)⟩

/-- `os.path.basename`: everything after the last path separator. -/
def basename (p : String) : String :=
  ⟨p.toList.foldl (fun acc c => if c = '/' then [] else acc ++ [c]) []⟩

/-- `os.path.join(a, b)` for POSIX paths. -/
def path_join (a b : String) : String :=
  if b.toList.head? = some '/' then b
  else if a = "" ∨ a.toList.getLast? = some '/' then a ++ b
  else a ++ "/" ++ b

/-- External executable-resolution collaborators used by `_prog`:
`exe_exists` is `certbot.util.exe_exists` before `path_surgery`,
`exe_exists_after_surgery` the same check after `path_surgery` has modified
`PATH`, `surgery` the effect of `certbot.plugins.util.path_surgery` on the
environment, and `path_exists` is `os.path.exists`. -/
structure ExeWorld where
  exe_exists : String → Bool
  exe_exists_after_surgery : String → Bool
  surgery : String → List (String × String) → List (String × String)
  path_exists : String → Bool

/-- `_prog(shell_cmd)`: extract the program run by a shell command, or `none`
if the command is not found even after `path_surgery`. -/
def _prog (w : ExeWorld) (shell_cmd : String) (s : HookState) :
    Option String × HookState :=
  if w.exe_exists shell_cmd then (some (basename shell_cmd), s)
  else
    let s1 := { s with env := w.surgery shell_cmd s.env }
    if w.exe_exists_after_surgery shell_cmd then (some (basename shell_cmd), s1)
    else (none, s1)

/-- `validate_hook(shell_cmd, hook_name)`: check that a command provided as a
hook is plausibly executable; raise `HookCommandNotFound` otherwise. -/
def validate_hook (w : ExeWorld) (shell_cmd : String) (hook_name : String)
    (s : HookState) : HookState × Except PyErr Unit :=
  if shell_cmd ≠ "" then
    match firstToken shell_cmd with
    | none => (s, .error .indexError)
    | some cmd =>
      match _prog w cmd s with
      | (some _, s1) => (s1, .ok ())
      | (none, s1) =>
        match envGet s1.env "PATH" with
        | none => (s1, .error (.keyError "PATH"))
        | some path =>
          if w.path_exists cmd then
            (s1, .error (.hookCommandNotFound
              (hook_name ++ "-hook command " ++ cmd ++
               " exists, but is not executable.")))
          else
            (s1, .error (.hookCommandNotFound
              ("Unable to find " ++ hook_name ++ "-hook command " ++ cmd ++
               " in the PATH.\n(PATH is " ++ path ++ ")")))
  else (s, .ok ())

/-- `execute(shell_cmd)`: run a command via the Executor, log its output and
exit status, and return `(stderr, stdout)`.  The subprocess is spawned first;
`shell_cmd.split(None, 1)[0]` then raises `IndexError` when the command is
all whitespace, so in that case the invocation has already happened. -/
def execute (ex : Executor) (shell_cmd : String) (s : HookState) :
    HookState × Except PyErr (String × String) :=
  let r := ex shell_cmd
  let s1 := { s with calls := s.calls ++ [⟨shell_cmd, s.env⟩] }
  match firstToken shell_cmd with
  | none => (s1, .error .indexError)
  | some tok =>
    let base_cmd := basename tok
    let s2 := if r.out ≠ "" then
        s1.logInfo ("Output from " ++ base_cmd ++ ":\n" ++ r.out) else s1
    let s3 := if r.returncode ≠ 0 then
        s2.logError ("Hook command \"" ++ shell_cmd ++ "\" returned error code "
          ++ toString r.returncode) else s2
    let s4 := if r.err ≠ "" then
        s3.logError ("Error output from " ++ base_cmd ++ ":\n" ++ r.err) else s3
    (s4, .ok (r.err, r.out))

/-- `_run_hook(shell_cmd)`: run a hook command, returning stderr. -/
def _run_hook (ex : Executor) (shell_cmd : String) (s : HookState) :
    HookState × Except PyErr String :=
  match execute ex shell_cmd s with
  | (s1, .ok (err, _)) => (s1, .ok err)
  | (s1, .error e) => (s1, .error e)

/-- `_run_pre_hook_if_necessary(command)`: run the pre-hook unless the exact
command was already run, in which case only a skip message is logged. -/
def _run_pre_hook_if_necessary (ex : Executor) (command : String)
    (s : HookState) : HookState × Except PyErr Unit :=
  if command ∈ s.already then
    (s.logInfo ("Pre-hook command already run, skipping: " ++ command), .ok ())
  else
    let s1 := s.logInfo ("Running pre-hook command: " ++ command)
    match _run_hook ex command s1 with
    | (s2, .ok _) => ({ s2 with already := s2.already.insert command }, .ok ())
    | (s2, .error e) => (s2, .error e)

/-- The filesystem as seen by `list_hooks`: `listdir` is `os.listdir`
(`none` when the directory does not exist, so that the call raises `OSError`),
`is_exe` is `certbot.util.is_exe`. -/
structure FS where
  listdir : String → Option (List String)
  is_exe : String → Bool

/-- `list_hooks(dir_path)`: paths to all hooks found in `dir_path` in sorted
order.  `os.listdir` raises when the directory does not exist. -/
def list_hooks (fs : FS) (dir_path : String) : Except PyErr (List String) :=
  match fs.listdir dir_path with
  | none => .error (.osError dir_path)
  | some files =>
    .ok (((files.map (path_join dir_path)).filter fs.is_exe).mergeSort
      (fun a b => a ≤ b))

/-- Certbot settings relevant to `hooks.py`.  An unset hook command is the
empty string (falsy, like `None` in the Python). -/
structure Config where
  verb : String
  directory_hooks : Bool
  pre_hook : String
  post_hook : String
  deploy_hook : String
  renew_hook : String
  dry_run : Bool
  renewal_pre_hooks_dir : String
  renewal_post_hooks_dir : String
  renewal_deploy_hooks_dir : String

/-- The `for hook in list_hooks(...): _run_pre_hook_if_necessary(hook)` loop;
an exception aborts the remaining iterations. -/
def runPreHooksList (ex : Executor) :
    List String → HookState → HookState × Except PyErr Unit
  | [], s => (s, .ok ())
  | h :: t, s =>
    match _run_pre_hook_if_necessary ex h s with
    | (s1, .ok _) => runPreHooksList ex t s1
    | (s1, .error e) => (s1, .error e)

/-- The directory phase of `pre_hook` (lines 71-73): run the hooks of
`config.renewal_pre_hooks_dir` when the verb is `renew` and directory hooks
are enabled. -/
def pre_hook_dir_phase (ex : Executor) (fs : FS) (c : Config) (s : HookState) :
    HookState × Except PyErr Unit :=
  if c.verb = "renew" ∧ c.directory_hooks then
    match list_hooks fs c.renewal_pre_hooks_dir with
    | .error e => (s, .error e)
    | .ok hooks => runPreHooksList ex hooks s
  else (s, .ok ())

/-- `pre_hook(config)`: run pre-hooks if they exist and have not already been
run — directory hooks first, then the configured pre-hook. -/
def pre_hook (ex : Executor) (fs : FS) (c : Config) (s : HookState) :
    HookState × Except PyErr Unit :=
  match pre_hook_dir_phase ex fs c s with
  | (s1, .error e) => (s1, .error e)
  | (s1, .ok _) =>
    if c.pre_hook ≠ "" then _run_pre_hook_if_necessary ex c.pre_hook s1
    else (s1, .ok ())

/-- `_run_eventually(command)`: register a post-hook to be run when
`run_saved_post_hooks` is called, skipping exact duplicates. -/
def _run_eventually (command : String) (s : HookState) : HookState :=
  if command ∈ s.eventually then s
  else { s with eventually := s.eventually ++ [command] }

/-- A sequence of `_run_eventually` registrations, in order. -/
def enqueueAll (commands : List String) (s : HookState) : HookState :=
  commands.foldl (fun st c => _run_eventually c st) s

/-- `post_hook(config)`: in the `renew` case register directory post-hooks
then the configured post-hook for deferred execution; otherwise run the
configured post-hook immediately. -/
def post_hook (ex : Executor) (fs : FS) (c : Config) (s : HookState) :
    HookState × Except PyErr Unit :=
  let cmd := c.post_hook
  if c.verb = "renew" then
    match ((if c.directory_hooks then
        match list_hooks fs c.renewal_post_hooks_dir with
        | .error e => (s, Except.error e)
        | .ok hooks => (hooks.foldl (fun st h => _run_eventually h st) s, .ok ())
      else (s, .ok ())) : HookState × Except PyErr Unit) with
    | (s1, .error e) => (s1, .error e)
    | (s1, .ok _) =>
      if cmd ≠ "" then (_run_eventually cmd s1, .ok ()) else (s1, .ok ())
  else
    if cmd ≠ "" then
      let s1 := s.logInfo ("Running post-hook command: " ++ cmd)
      match _run_hook ex cmd s1 with
      | (s2, .ok _) => (s2, .ok ())
      | (s2, .error e) => (s2, .error e)
    else (s, .ok ())

/-- The `for cmd in post_hook.eventually` loop of `run_saved_post_hooks`. -/
def runPostHookList (ex : Executor) :
    List String → HookState → HookState × Except PyErr Unit
  | [], s => (s, .ok ())
  | h :: t, s =>
    let s1 := s.logInfo ("Running post-hook command: " ++ h)
    match _run_hook ex h s1 with
    | (s2, .ok _) => runPostHookList ex t s2
    | (s2, .error e) => (s2, .error e)

/-- `run_saved_post_hooks()`: run any post hooks that were saved up in the
course of the `renew` verb. -/
def run_saved_post_hooks (ex : Executor) (s : HookState) :
    HookState × Except PyErr Unit :=
  runPostHookList ex s.eventually s

/-- `_run_deploy_hook(command, domains, lineage_path, dry_run)`: skip (with a
warning) on dry run; otherwise export `RENEWED_DOMAINS` and `RENEWED_LINEAGE`
and run the command. -/
def _run_deploy_hook (ex : Executor) (command : String) (domains : List String)
    (lineage_path : String) (dry_run : Bool) (s : HookState) :
    HookState × Except PyErr Unit :=
  if dry_run then
    (s.logWarning ("Dry run: skipping deploy hook command: " ++ command), .ok ())
  else
    let s1 := { s with
      env := envSet (envSet s.env "RENEWED_DOMAINS" (String.intercalate " " domains))
        "RENEWED_LINEAGE" lineage_path }
    let s2 := s1.logInfo ("Running deploy-hook command: " ++ command)
    match _run_hook ex command s2 with
    | (s3, .ok _) => (s3, .ok ())
    | (s3, .error e) => (s3, .error e)

/-- `deploy_hook(config, domains, lineage_path)`: run the configured
deploy-hook, if any. -/
def deploy_hook (ex : Executor) (c : Config) (domains : List String)
    (lineage_path : String) (s : HookState) : HookState × Except PyErr Unit :=
  if c.deploy_hook ≠ "" then
    _run_deploy_hook ex c.deploy_hook domains lineage_path c.dry_run s
  else (s, .ok ())

/-- The `for hook in list_hooks(...)` loop of `renew_hook`, also accumulating
`executed_dir_hooks`. -/
def runDirDeployHooks (ex : Executor) (domains : List String) (lineage : String)
    (dry : Bool) : List String → HookState → List String →
    HookState × List String × Except PyErr Unit
  | [], s, acc => (s, acc, .ok ())
  | h :: t, s, acc =>
    match _run_deploy_hook ex h domains lineage dry s with
    | (s1, .ok _) => runDirDeployHooks ex domains lineage dry t s1 (acc.insert h)
    | (s1, .error e) => (s1, acc, .error e)

/-- `renew_hook(config, domains, lineage_path)`: run directory deploy-hooks,
then the configured renew-hook unless it was just run from the directory. -/
def renew_hook (ex : Executor) (fs : FS) (c : Config) (domains : List String)
    (lineage_path : String) (s : HookState) : HookState × Except PyErr Unit :=
  match ((if c.directory_hooks then
      match list_hooks fs c.renewal_deploy_hooks_dir with
      | .error e => (s, [], Except.error e)
      | .ok hooks => runDirDeployHooks ex domains lineage_path c.dry_run hooks s []
    else (s, [], .ok ())) : HookState × List String × Except PyErr Unit) with
  | (s1, _, .error e) => (s1, .error e)
  | (s1, executed_dir_hooks, .ok _) =>
    if c.renew_hook ≠ "" then
      if c.renew_hook ∈ executed_dir_hooks then
        (s1.logInfo ("Skipping deploy-hook '" ++ c.renew_hook ++
          "' as it was already run."), .ok ())
      else
        _run_deploy_hook ex c.renew_hook domains lineage_path c.dry_run s1
    else (s1, .ok ())

/-- Specification-side description of deduplication: the subsequence of first
occurrences of a list, in their original order. -/
def firstOccurrences : List String → List String
  | [] => []
  | c :: cs => c :: firstOccurrences (cs.filter (fun x => x ≠ c))
termination_by l => l.length
decreasing_by
  exact Nat.lt_succ_of_le (List.length_filter_le _ _)

/-- The log entries `execute` appends for a command whose first token is
`tok` (lines 244-250): optional stdout report, error-code report, stderr
report, in that order. -/
def executeLog (ex : Executor) (cmd tok : String) : List LogEntry :=
  (if (ex cmd).out ≠ "" then
    [⟨.info, "Output from " ++ basename tok ++ ":\n" ++ (ex cmd).out⟩] else []) ++
  (if (ex cmd).returncode ≠ 0 then
    [⟨.error, "Hook command \"" ++ cmd ++ "\" returned error code " ++
      toString (ex cmd).returncode⟩] else []) ++
  (if (ex cmd).err ≠ "" then
    [⟨.error, "Error output from " ++ basename tok ++ ":\n" ++ (ex cmd).err⟩] else [])

/-- The environment after the two `os.environ` assignments of
`_run_deploy_hook` (lines 218-219). -/
def deployEnv (env : List (String × String)) (domains : List String)
    (lineage_path : String) : List (String × String) :=
  envSet (envSet env "RENEWED_DOMAINS" (String.intercalate " " domains))
    "RENEWED_LINEAGE" lineage_path

/-! Concrete fixtures used to instantiate the theorems below. -/

/-- An executor whose commands all succeed silently. -/
def exZero : Executor := fun _ => ⟨"", "", 0⟩

/-- An executor whose commands all exit 1 with stderr output `boom`. -/
def exFail : Executor := fun _ => ⟨"", "boom", 1⟩

def sInit : HookState := ⟨[], [], [], [], []⟩

def sPath : HookState := ⟨[], [], [("PATH", "/usr/bin")], [], []⟩

/-- A state with two post-hooks already registered. -/
def sQueue : HookState := ⟨[], ["/a", "/b"], [], [], []⟩

/-- A filesystem with no directories at all. -/
def fsMissing : FS := ⟨fun _ => none, fun _ => false⟩

/-- A filesystem whose directories are all empty. -/
def fsEmpty : FS := ⟨fun _ => some [], fun _ => true⟩

/-- A filesystem whose directories all hold executables `a.sh` and `b.sh`. -/
def fsAB : FS := ⟨fun _ => some ["a.sh", "b.sh"], fun _ => true⟩

/-- Resolution fails but the raw path exists on disk (not executable). -/
def wNotExec : ExeWorld := ⟨fun _ => false, fun _ => false, fun _ env => env, fun _ => true⟩

/-- Resolution fails and the raw path does not exist. -/
def wNotFound : ExeWorld := ⟨fun _ => false, fun _ => false, fun _ env => env, fun _ => false⟩

/-- A renew-mode configuration with directory hooks enabled whose configured
renew-hook equals a directory hook path, and a configured pre-hook. -/
def cRenew : Config :=
  ⟨"renew", true, "/p.sh", "", "", "/d/a.sh", false, "/d", "/d", "/d"⟩

/-- A certonly-style configuration (verb is not `renew`). -/
def cCertonly : Config :=
  ⟨"certonly", true, "/p.sh", "", "", "", false, "/d", "/d", "/d"⟩

/-! General lemmas about the embedding. -/

theorem envGet_cons_eq (p : String × String) (env : List (String × String))
    (k : String) (h : p.1 = k) : envGet (p :: env) k = some p.2 := by
  simp [envGet, List.find?_cons, h]

theorem envGet_cons_ne (p : String × String) (env : List (String × String))
    (k : String) (h : p.1 ≠ k) : envGet (p :: env) k = envGet env k := by
  simp [envGet, List.find?_cons, h]

theorem envGet_filter_ne (env : List (String × String)) (k k' : String)
    (h : k' ≠ k) :
    envGet (env.filter (fun p => p.1 ≠ k)) k' = envGet env k' := by
  induction env with
  | nil => rfl
  | cons hd t ih =>
    by_cases h1 : hd.1 = k
    · have h2 : hd.1 ≠ k' := by rw [h1]; exact fun hh => h hh.symm
      rw [List.filter_cons_of_neg (by simp [h1]), envGet_cons_ne _ _ _ h2]
      exact ih
    · rw [List.filter_cons_of_pos (by simpa using h1)]
      by_cases h2 : hd.1 = k'
      · rw [envGet_cons_eq _ _ _ h2, envGet_cons_eq _ _ _ h2]
      · rw [envGet_cons_ne _ _ _ h2, envGet_cons_ne _ _ _ h2]
        exact ih

theorem envGet_envSet_same (env : List (String × String)) (k v : String) :
    envGet (envSet env k v) k = some v := by
  rw [envSet, envGet_cons_eq _ _ _ rfl]

theorem envGet_envSet_other (env : List (String × String)) (k v k' : String)
    (h : k' ≠ k) : envGet (envSet env k v) k' = envGet env k' := by
  rw [envSet, envGet_cons_ne _ _ _ (fun hh => h hh.symm),
    envGet_filter_ne _ _ _ h]

theorem execute_eq_of_token (ex : Executor) (cmd tok : String) (s : HookState)
    (h : firstToken cmd = some tok) :
    execute ex cmd s =
      ({ s with calls := s.calls ++ [⟨cmd, s.env⟩],
                log := s.log ++ executeLog ex cmd tok },
       .ok ((ex cmd).err, (ex cmd).out)) := by
  simp only [execute, h, executeLog, HookState.logInfo, HookState.logError]
  split_ifs <;> simp [List.append_assoc]

theorem execute_eq_of_no_token (ex : Executor) (cmd : String) (s : HookState)
    (h : firstToken cmd = none) :
    execute ex cmd s =
      ({ s with calls := s.calls ++ [⟨cmd, s.env⟩] }, .error .indexError) := by
  simp only [execute, h]

theorem execute_components (ex : Executor) (cmd : String) (s : HookState) :
    (execute ex cmd s).1.calls = s.calls ++ [⟨cmd, s.env⟩] ∧
    (execute ex cmd s).1.env = s.env ∧
    (execute ex cmd s).1.already = s.already ∧
    (execute ex cmd s).1.eventually = s.eventually := by
  cases h : firstToken cmd with
  | none => rw [execute_eq_of_no_token ex cmd s h]; exact ⟨rfl, rfl, rfl, rfl⟩
  | some tok => rw [execute_eq_of_token ex cmd tok s h]; exact ⟨rfl, rfl, rfl, rfl⟩

theorem _run_hook_eq_of_token (ex : Executor) (cmd tok : String) (s : HookState)
    (h : firstToken cmd = some tok) :
    _run_hook ex cmd s =
      ({ s with calls := s.calls ++ [⟨cmd, s.env⟩],
                log := s.log ++ executeLog ex cmd tok },
       .ok (ex cmd).err) := by
  simp only [_run_hook, execute_eq_of_token ex cmd tok s h]

/-! C5 and its surroundings. -/

/-- C5: for every command, domain list and lineage path, `_run_deploy_hook`
with `dry_run = true` performs no Executor invocation, produces exactly one
log entry — a warning mentioning the skipped command — and returns normally
leaving the rest of the state untouched. -/
theorem C5_dry_run_skips (ex : Executor) (command : String)
    (domains : List String) (lineage_path : String) (s : HookState) :
    _run_deploy_hook ex command domains lineage_path true s =
      ({ s with log := s.log ++
          [⟨.warning, "Dry run: skipping deploy hook command: " ++ command⟩] },
       .ok ()) := by
  simp [_run_deploy_hook, HookState.logWarning]

/-! C3: `list_hooks` on empty and missing directories. -/

/-- C3 counterexample: `list_hooks` does raise for a non-existent directory —
`os.listdir` propagates its error instead of yielding an empty sequence. -/
theorem C3_counterexample :
    list_hooks fsMissing "/nohooks" = .error (.osError "/nohooks") := rfl

/-- C3 (amended): `list_hooks` on an existing empty directory returns the
empty sequence; on a non-existent directory it raises the listing error
rather than returning a sequence. -/
theorem C3_empty_and_missing (fs : FS) (d : String) :
    (fs.listdir d = some [] → list_hooks fs d = .ok []) ∧
    (fs.listdir d = none → list_hooks fs d = .error (.osError d)) := by
  constructor
  · intro h; simp [list_hooks, h, List.mergeSort]
  · intro h; simp [list_hooks, h]

/-- C3 witness: the amended statement at the concrete empty and missing
filesystems. -/
theorem C3_witness :
    list_hooks fsEmpty "/d" = .ok [] ∧
    list_hooks fsMissing "/d" = .error (.osError "/d") :=
  ⟨(C3_empty_and_missing fsEmpty "/d").1 rfl,
   (C3_empty_and_missing fsMissing "/d").2 rfl⟩

/-! C7: failure-swallowing in `execute`. -/

/-- C7 counterexample: `execute` can raise — on the whitespace-only command
`" "` the subprocess is spawned, but `shell_cmd.split(None, 1)[0]` then
raises `IndexError`, which propagates to the caller. -/
theorem C7_counterexample :
    (execute exZero " " sInit).2 = Except.error PyErr.indexError := rfl

/-- C7 (amended): for every command having a first non-whitespace token,
`execute` raises no exception: it returns the captured `(stderr, stdout)`
pair, and a non-zero exit status or non-empty stderr is reported via
error-level log entries only. -/
theorem C7_execute_swallows (ex : Executor) (cmd tok : String) (s : HookState)
    (h : firstToken cmd = some tok) :
    (execute ex cmd s).2 = .ok ((ex cmd).err, (ex cmd).out) ∧
    ((ex cmd).returncode ≠ 0 →
      (⟨.error, "Hook command \"" ++ cmd ++ "\" returned error code " ++
        toString (ex cmd).returncode⟩ : LogEntry) ∈ (execute ex cmd s).1.log) ∧
    ((ex cmd).err ≠ "" →
      (⟨.error, "Error output from " ++ basename tok ++ ":\n" ++ (ex cmd).err⟩ :
        LogEntry) ∈ (execute ex cmd s).1.log) := by
  rw [execute_eq_of_token ex cmd tok s h]
  refine ⟨rfl, ?_, ?_⟩
  · intro hc
    simp [executeLog, hc]
  · intro he
    simp [executeLog, he]

/-- C7 witness: the amended statement at a concrete failing executor. -/
theorem C7_witness :
    (execute exFail "/a" sInit).2 = .ok ((exFail "/a").err, (exFail "/a").out) ∧
    (⟨.error, "Hook command \"" ++ "/a" ++ "\" returned error code " ++
      toString (exFail "/a").returncode⟩ : LogEntry) ∈
        (execute exFail "/a" sInit).1.log ∧
    (⟨.error, "Error output from " ++ basename "/a" ++ ":\n" ++
      (exFail "/a").err⟩ : LogEntry) ∈ (execute exFail "/a" sInit).1.log := by
  have h := C7_execute_swallows exFail "/a" "/a" sInit (by decide)
  exact ⟨h.1, h.2.1 (by decide), h.2.2 (by decide)⟩

/-! C6: the errors raised by `validate_hook`. -/

/-- C6 counterexample: both validation failure modes raise the *same* error
class, `HookCommandNotFound` — there are no two distinct typed errors, and in
particular the exists-but-not-executable case does not raise a type named
`HookNotExecutable`; the two cases differ only in message text. -/
theorem C6_counterexample :
    (validate_hook wNotExec "/x" "pre" sPath).2 =
      .error (.hookCommandNotFound
        "pre-hook command /x exists, but is not executable.") ∧
    (validate_hook wNotFound "/y" "pre" sPath).2 =
      .error (.hookCommandNotFound
        "Unable to find pre-hook command /y in the PATH.\n(PATH is /usr/bin)") ∧
    pyErrClassName (.hookCommandNotFound
        "pre-hook command /x exists, but is not executable.") =
      pyErrClassName (.hookCommandNotFound
        "Unable to find pre-hook command /y in the PATH.\n(PATH is /usr/bin)") ∧
    pyErrClassName (.hookCommandNotFound
        "pre-hook command /x exists, but is not executable.") ≠
      "HookNotExecutable" := by
  refine ⟨rfl, rfl, rfl, by decide⟩

/-- C6 (amended): validating an empty command is a no-op and never raises;
a non-empty all-whitespace command raises `IndexError`; otherwise, when the
first token fails to resolve, the single typed error `HookCommandNotFound` is
raised, whose message cites the kind and token (plus "exists, but is not
executable") when the raw token exists on disk, and otherwise cites the kind,
the token and the current PATH value. -/
theorem C6_validate_errors (w : ExeWorld) (shell_cmd hook_name tok path : String)
    (s : HookState) :
    validate_hook w "" hook_name s = (s, .ok ()) ∧
    (shell_cmd ≠ "" → firstToken shell_cmd = none →
      validate_hook w shell_cmd hook_name s = (s, .error .indexError)) ∧
    (firstToken shell_cmd = some tok →
     (_prog w tok s).1 = none →
     envGet (_prog w tok s).2.env "PATH" = some path →
     validate_hook w shell_cmd hook_name s =
       ((_prog w tok s).2,
        .error (.hookCommandNotFound
          (if w.path_exists tok then
            hook_name ++ "-hook command " ++ tok ++
              " exists, but is not executable."
          else
            "Unable to find " ++ hook_name ++ "-hook command " ++ tok ++
              " in the PATH.\n(PATH is " ++ path ++ ")")))) := by
  refine ⟨by simp [validate_hook], ?_, ?_⟩
  · intro h1 h2
    simp [validate_hook, h1, h2]
  · intro h1 h2 h3
    have hne : shell_cmd ≠ "" := by
      intro he
      rw [he] at h1
      exact Option.noConfusion h1
    rcases hp : _prog w tok s with ⟨o, s1⟩
    rw [hp] at h2 h3
    simp only at h2 h3
    subst h2
    simp only [validate_hook, hne, if_true, ne_eq, not_false_eq_true, ite_true,
      h1, hp, h3]
    by_cases hpe : w.path_exists tok <;> simp [hpe]

/-- C6 witness: the amended statement at the concrete not-executable world
(and the empty-command no-op). -/
theorem C6_witness :
    validate_hook wNotExec "/x" "pre" sPath =
      ((_prog wNotExec "/x" sPath).2,
       .error (.hookCommandNotFound
         (if wNotExec.path_exists "/x" then
            "pre" ++ "-hook command " ++ "/x" ++
              " exists, but is not executable."
          else
            "Unable to find " ++ "pre" ++ "-hook command " ++ "/x" ++
              " in the PATH.\n(PATH is " ++ "/usr/bin" ++ ")"))) ∧
    validate_hook wNotExec "" "pre" sPath = (sPath, .ok ()) := by
  have h := C6_validate_errors wNotExec "/x" "pre" "/x" "/usr/bin" sPath
  exact ⟨h.2.2 (by decide) rfl rfl, h.1⟩

/-! C1: pre-hook run-once deduplication. -/

/-- C1 counterexample: for the whitespace-only command `" "`, `execute`
raises `IndexError` after spawning the subprocess, so the command is never
added to `pre_hook.already` — a second call invokes the Executor again
(two invocations in total) and the command is still not recorded. -/
theorem C1_counterexample :
    cmds (_run_pre_hook_if_necessary exZero " "
      (_run_pre_hook_if_necessary exZero " " sInit).1).1 = [" ", " "] ∧
    " " ∉ (_run_pre_hook_if_necessary exZero " "
      (_run_pre_hook_if_necessary exZero " " sInit).1).1.already :=
  ⟨rfl, by decide⟩

theorem run_pre_skip (ex : Executor) (c : String) (s : HookState)
    (h : c ∈ s.already) :
    _run_pre_hook_if_necessary ex c s =
      (s.logInfo ("Pre-hook command already run, skipping: " ++ c), .ok ()) := by
  simp [_run_pre_hook_if_necessary, h]

theorem run_pre_fresh (ex : Executor) (c tok : String) (s : HookState)
    (h1 : c ∉ s.already) (h2 : firstToken c = some tok) :
    _run_pre_hook_if_necessary ex c s =
      ({ s with already := s.already.insert c,
                calls := s.calls ++ [⟨c, s.env⟩],
                log := (s.log ++ [⟨.info, "Running pre-hook command: " ++ c⟩])
                  ++ executeLog ex c tok }, .ok ()) := by
  have hr := _run_hook_eq_of_token ex c tok
    (s.logInfo ("Running pre-hook command: " ++ c)) h2
  simp only [HookState.logInfo] at hr
  simp only [_run_pre_hook_if_necessary, if_neg h1, HookState.logInfo, hr]

/-- C1: for a command not yet run, `_run_pre_hook_if_necessary` invokes the
Executor for it exactly once; calling it a second time invokes nothing,
appends only the skip log entry, and the command is in the already-run set
afterwards. -/
theorem C1_pre_hook_once (ex : Executor) (c tok : String) (s : HookState)
    (h1 : c ∉ s.already) (h2 : firstToken c = some tok) :
    (_run_pre_hook_if_necessary ex c s).2 = .ok () ∧
    cmds (_run_pre_hook_if_necessary ex c s).1 = cmds s ++ [c] ∧
    c ∈ (_run_pre_hook_if_necessary ex c s).1.already ∧
    _run_pre_hook_if_necessary ex c (_run_pre_hook_if_necessary ex c s).1 =
      ((_run_pre_hook_if_necessary ex c s).1.logInfo
        ("Pre-hook command already run, skipping: " ++ c), .ok ()) := by
  rw [run_pre_fresh ex c tok s h1 h2]
  refine ⟨rfl, by simp [cmds], by simp [List.mem_insert_iff], ?_⟩
  exact run_pre_skip ex c _ (by simp [List.mem_insert_iff])

/-- C1 witness: the statement at a concrete fresh command. -/
theorem C1_witness :
    (_run_pre_hook_if_necessary exZero "/a" sInit).2 = .ok () ∧
    cmds (_run_pre_hook_if_necessary exZero "/a" sInit).1 = cmds sInit ++ ["/a"] ∧
    "/a" ∈ (_run_pre_hook_if_necessary exZero "/a" sInit).1.already ∧
    _run_pre_hook_if_necessary exZero "/a"
        (_run_pre_hook_if_necessary exZero "/a" sInit).1 =
      ((_run_pre_hook_if_necessary exZero "/a" sInit).1.logInfo
        ("Pre-hook command already run, skipping: " ++ "/a"), .ok ()) :=
  C1_pre_hook_once exZero "/a" "/a" sInit (by decide) (by decide)

/-! More state-tracking lemmas. -/

theorem _run_hook_components (ex : Executor) (cmd : String) (s : HookState) :
    (_run_hook ex cmd s).1.calls = s.calls ++ [⟨cmd, s.env⟩] ∧
    (_run_hook ex cmd s).1.env = s.env ∧
    (_run_hook ex cmd s).1.already = s.already ∧
    (_run_hook ex cmd s).1.eventually = s.eventually := by
  have h := execute_components ex cmd s
  unfold _run_hook
  rcases hE : execute ex cmd s with ⟨sE, rE⟩
  rw [hE] at h
  cases rE <;> simpa using h

theorem runPostHookList_eventually (ex : Executor) (l : List String) :
    ∀ s : HookState, (runPostHookList ex l s).1.eventually = s.eventually := by
  induction l with
  | nil => intro s; rfl
  | cons h t ih =>
    intro s
    have hcomp := (_run_hook_components ex h
      (s.logInfo ("Running post-hook command: " ++ h))).2.2.2
    simp only [runPostHookList]
    rcases hR : _run_hook ex h (s.logInfo ("Running post-hook command: " ++ h))
      with ⟨sR, rR⟩
    rw [hR] at hcomp
    cases rR with
    | ok v => rw [ih sR, hcomp]; rfl
    | error e => rw [hcomp]; rfl

theorem runPostHookList_ok (ex : Executor) (l : List String) :
    ∀ s : HookState, (∀ c ∈ l, firstToken c ≠ none) →
    (runPostHookList ex l s).2 = .ok () ∧
    cmds (runPostHookList ex l s).1 = cmds s ++ l := by
  induction l with
  | nil => intro s _; exact ⟨rfl, by simp [runPostHookList, cmds]⟩
  | cons h t ih =>
    intro s hall
    obtain ⟨tok, htok⟩ : ∃ tok, firstToken h = some tok := by
      cases hf : firstToken h with
      | none => exact absurd hf (hall h (by simp))
      | some tok => exact ⟨tok, rfl⟩
    have hr := _run_hook_eq_of_token ex h tok
      (s.logInfo ("Running post-hook command: " ++ h)) htok
    simp only [HookState.logInfo] at hr
    simp only [runPostHookList, HookState.logInfo, hr]
    have hrec := ih { s with
        log := (s.log ++ [⟨.info, "Running post-hook command: " ++ h⟩]) ++
          executeLog ex h tok,
        calls := s.calls ++ [⟨h, s.env⟩] }
      (fun c hc => hall c (by simp [hc]))
    refine ⟨hrec.1, ?_⟩
    rw [hrec.2]
    simp [cmds, List.append_assoc]

theorem enqueueAll_eventually (commands : List String) :
    ∀ s : HookState, (enqueueAll commands s).eventually =
      s.eventually ++
        firstOccurrences (commands.filter (fun x => x ∉ s.eventually)) := by
  induction commands with
  | nil => intro s; simp [enqueueAll, firstOccurrences]
  | cons c cs ih =>
    intro s
    have hstep : enqueueAll (c :: cs) s = enqueueAll cs (_run_eventually c s) := by
      simp [enqueueAll, List.foldl_cons]
    by_cases hc : c ∈ s.eventually
    · have h1 : _run_eventually c s = s := by simp [_run_eventually, hc]
      have h2 : (c :: cs).filter (fun x => x ∉ s.eventually) =
          cs.filter (fun x => x ∉ s.eventually) := by
        simp [List.filter_cons, hc]
      rw [hstep, h1, h2, ih s]
    · have h1 : _run_eventually c s =
          { s with eventually := s.eventually ++ [c] } := by
        simp [_run_eventually, hc]
      have h2 : (c :: cs).filter (fun x => x ∉ s.eventually) =
          c :: cs.filter (fun x => x ∉ s.eventually) := by
        simp [List.filter_cons, hc]
      have h3 : cs.filter (fun x => x ∉ s.eventually ++ [c]) =
          (cs.filter (fun x => x ∉ s.eventually)).filter (fun x => x ≠ c) := by
        rw [List.filter_filter]
        apply List.filter_congr
        intro x _
        simp [List.mem_append, not_or, And.comm]
      rw [hstep, h1, ih _]
      simp only [h2, h3]
      rw [firstOccurrences]
      simp [List.append_assoc]

theorem enqueueAll_components (commands : List String) :
    ∀ s : HookState, (enqueueAll commands s).calls = s.calls ∧
      (enqueueAll commands s).log = s.log ∧
      (enqueueAll commands s).env = s.env ∧
      (enqueueAll commands s).already = s.already := by
  induction commands with
  | nil => intro s; exact ⟨rfl, rfl, rfl, rfl⟩
  | cons c cs ih =>
    intro s
    have hstep : enqueueAll (c :: cs) s = enqueueAll cs (_run_eventually c s) := by
      simp [enqueueAll, List.foldl_cons]
    have h1 : (_run_eventually c s).calls = s.calls ∧
        (_run_eventually c s).log = s.log ∧
        (_run_eventually c s).env = s.env ∧
        (_run_eventually c s).already = s.already := by
      by_cases hc : c ∈ s.eventually <;> simp [_run_eventually, hc]
    rw [hstep]
    obtain ⟨a1, a2, a3, a4⟩ := ih (_run_eventually c s)
    exact ⟨a1.trans h1.1, a2.trans h1.2.1, a3.trans h1.2.2.1, a4.trans h1.2.2.2⟩

theorem mem_firstOccurrences : ∀ (l : List String) (x : String),
    x ∈ firstOccurrences l → x ∈ l := by
  intro l
  induction l using firstOccurrences.induct with
  | case1 =>
    intro x h
    rw [firstOccurrences] at h
    exact absurd h (List.not_mem_nil x)
  | case2 c cs ih =>
    intro x h
    rw [firstOccurrences] at h
    rcases List.mem_cons.mp h with h1 | h2
    · exact h1 ▸ List.mem_cons_self _ _
    · exact List.mem_cons_of_mem _ (List.mem_of_mem_filter (ih x h2))

theorem envGet_deployEnv_domains (env : List (String × String))
    (domains : List String) (lineage_path : String) :
    envGet (deployEnv env domains lineage_path) "RENEWED_DOMAINS" =
      some (String.intercalate " " domains) := by
  rw [deployEnv, envGet_envSet_other _ _ _ _ (by decide), envGet_envSet_same]

theorem envGet_deployEnv_lineage (env : List (String × String))
    (domains : List String) (lineage_path : String) :
    envGet (deployEnv env domains lineage_path) "RENEWED_LINEAGE" =
      some lineage_path := by
  rw [deployEnv, envGet_envSet_same]

theorem envGet_deployEnv_other (env : List (String × String))
    (domains : List String) (lineage_path k : String)
    (h1 : k ≠ "RENEWED_DOMAINS") (h2 : k ≠ "RENEWED_LINEAGE") :
    envGet (deployEnv env domains lineage_path) k = envGet env k := by
  rw [deployEnv, envGet_envSet_other _ _ _ _ h2, envGet_envSet_other _ _ _ _ h1]

theorem _run_deploy_hook_components (ex : Executor) (command : String)
    (domains : List String) (lineage_path : String) (s : HookState) :
    (_run_deploy_hook ex command domains lineage_path false s).1.calls =
      s.calls ++ [⟨command, deployEnv s.env domains lineage_path⟩] ∧
    (_run_deploy_hook ex command domains lineage_path false s).1.env =
      deployEnv s.env domains lineage_path ∧
    (_run_deploy_hook ex command domains lineage_path false s).1.already =
      s.already ∧
    (_run_deploy_hook ex command domains lineage_path false s).1.eventually =
      s.eventually := by
  have h := _run_hook_components ex command
    ({ s with env := deployEnv s.env domains lineage_path,
              log := s.log ++
                [⟨.info, "Running deploy-hook command: " ++ command⟩] })
  simp only [_run_deploy_hook, HookState.logInfo, deployEnv] at *
  rcases hR : _run_hook ex command
      ({ s with
        env := envSet (envSet s.env "RENEWED_DOMAINS"
            (String.intercalate " " domains)) "RENEWED_LINEAGE" lineage_path,
        log := s.log ++
          [⟨.info, "Running deploy-hook command: " ++ command⟩] })
    with ⟨sR, rR⟩
  rw [hR] at h
  cases rR <;> simpa using h

theorem _run_deploy_hook_ok (ex : Executor) (command tok : String)
    (domains : List String) (lineage_path : String) (s : HookState)
    (h : firstToken command = some tok) :
    _run_deploy_hook ex command domains lineage_path false s =
      ({ s with env := deployEnv s.env domains lineage_path,
                log := (s.log ++
                  [⟨.info, "Running deploy-hook command: " ++ command⟩]) ++
                  executeLog ex command tok,
                calls := s.calls ++
                  [⟨command, deployEnv s.env domains lineage_path⟩] },
       .ok ()) := by
  have hr := _run_hook_eq_of_token ex command tok
    ({ s with env := deployEnv s.env domains lineage_path,
              log := s.log ++
                [⟨.info, "Running deploy-hook command: " ++ command⟩] }) h
  simp only [_run_deploy_hook, HookState.logInfo, deployEnv] at *
  rw [hr]
  rfl

/-! C10: environment injection of the deploy hook. -/


/-- C10: every non-dry-run `_run_deploy_hook` call invokes the Executor once
with `RENEWED_DOMAINS` (the domains joined by single spaces) and
`RENEWED_LINEAGE` (the lineage path) bound in the environment it passes to
the subprocess; the bindings persist in `os.environ` after the call, and
every other environment variable is left exactly as it was. -/
theorem C10_deploy_env (ex : Executor) (command : String)
    (domains : List String) (lineage_path : String) (s : HookState) :
    (_run_deploy_hook ex command domains lineage_path false s).1.calls =
      s.calls ++ [⟨command, deployEnv s.env domains lineage_path⟩] ∧
    envGet (deployEnv s.env domains lineage_path) "RENEWED_DOMAINS" =
      some (String.intercalate " " domains) ∧
    envGet (deployEnv s.env domains lineage_path) "RENEWED_LINEAGE" =
      some lineage_path ∧
    (_run_deploy_hook ex command domains lineage_path false s).1.env =
      deployEnv s.env domains lineage_path ∧
    (∀ k, k ≠ "RENEWED_DOMAINS" → k ≠ "RENEWED_LINEAGE" →
      envGet (_run_deploy_hook ex command domains lineage_path false s).1.env k =
        envGet s.env k) := by
  obtain ⟨hc, he, -, -⟩ :=
    _run_deploy_hook_components ex command domains lineage_path s
  refine ⟨hc, envGet_deployEnv_domains _ _ _, envGet_deployEnv_lineage _ _ _,
    he, ?_⟩
  intro k h1 h2
  rw [he, envGet_deployEnv_other _ _ _ _ h1 h2]

/-- C10 witness: the statement at a concrete call, with `PATH` as the
untouched other variable. -/
theorem C10_witness :
    (_run_deploy_hook exZero "/a" ["ex.com"] "/lin" false sPath).1.calls =
      sPath.calls ++ [⟨"/a", deployEnv sPath.env ["ex.com"] "/lin"⟩] ∧
    envGet (deployEnv sPath.env ["ex.com"] "/lin") "RENEWED_DOMAINS" =
      some (String.intercalate " " ["ex.com"]) ∧
    envGet (deployEnv sPath.env ["ex.com"] "/lin") "RENEWED_LINEAGE" =
      some "/lin" ∧
    (_run_deploy_hook exZero "/a" ["ex.com"] "/lin" false sPath).1.env =
      deployEnv sPath.env ["ex.com"] "/lin" ∧
    envGet (_run_deploy_hook exZero "/a" ["ex.com"] "/lin" false sPath).1.env
      "PATH" = envGet sPath.env "PATH" := by
  have h := C10_deploy_env exZero "/a" ["ex.com"] "/lin" sPath
  exact ⟨h.1, h.2.1, h.2.2.1, h.2.2.2.1,
    h.2.2.2.2 "PATH" (by decide) (by decide)⟩

/-! C8: the post-hook queue across a flush. -/

/-- C8 counterexample: `run_saved_post_hooks` does not clear the queue — the
queued commands survive the flush, and a second flush executes all of them
again instead of executing nothing. -/
theorem C8_counterexample :
    (run_saved_post_hooks exZero sQueue).1.eventually = ["/a", "/b"] ∧
    cmds (run_saved_post_hooks exZero
      (run_saved_post_hooks exZero sQueue).1).1 = ["/a", "/b", "/a", "/b"] :=
  ⟨rfl, rfl⟩

/-- C8 (amended): `pendingPostHooks` is append-only (`_run_eventually` either
leaves it unchanged or appends the new command at the end), but the flush does
not clear it: `run_saved_post_hooks` leaves the queue exactly as it was, so a
second flush executes the same sequence again.  (In practice the process
exits after the single flush.) -/
theorem C8_queue_not_cleared (ex : Executor) (command : String)
    (s : HookState) :
    ((_run_eventually command s).eventually = s.eventually ∨
     (_run_eventually command s).eventually = s.eventually ++ [command]) ∧
    (run_saved_post_hooks ex s).1.eventually = s.eventually ∧
    ((∀ c ∈ s.eventually, firstToken c ≠ none) →
      cmds (run_saved_post_hooks ex (run_saved_post_hooks ex s).1).1 =
        cmds s ++ s.eventually ++ s.eventually) := by
  have hs1 : (run_saved_post_hooks ex s).1.eventually = s.eventually :=
    runPostHookList_eventually ex s.eventually s
  refine ⟨?_, hs1, ?_⟩
  · by_cases h : command ∈ s.eventually
    · left; simp [_run_eventually, h]
    · right; simp [_run_eventually, h]
  · intro hall
    have h1 := runPostHookList_ok ex s.eventually s hall
    have h2 := runPostHookList_ok ex s.eventually (run_saved_post_hooks ex s).1
      hall
    have hrw : run_saved_post_hooks ex (run_saved_post_hooks ex s).1 =
        runPostHookList ex s.eventually (run_saved_post_hooks ex s).1 := by
      rw [run_saved_post_hooks, hs1]
    rw [hrw, h2.2]
    show cmds (runPostHookList ex s.eventually s).1 ++ s.eventually = _
    rw [h1.2]

/-- C8 witness: the amended statement at a concrete two-command queue. -/
theorem C8_witness :
    ((_run_eventually "/c" sQueue).eventually = sQueue.eventually ∨
     (_run_eventually "/c" sQueue).eventually = sQueue.eventually ++ ["/c"]) ∧
    (run_saved_post_hooks exZero sQueue).1.eventually = sQueue.eventually ∧
    cmds (run_saved_post_hooks exZero
        (run_saved_post_hooks exZero sQueue).1).1 =
      cmds sQueue ++ sQueue.eventually ++ sQueue.eventually := by
  have h := C8_queue_not_cleared exZero "/c" sQueue
  exact ⟨h.1, h.2.1, h.2.2 (by decide)⟩

/-! C2: enqueue deduplication and flush order. -/

/-- C2 counterexample: the queue part always holds, but the flush does not
execute "exactly that sequence" for every command string — a whitespace-only
queued command makes `execute` raise `IndexError` (after its own subprocess
invocation), aborting the flush so that later queued commands never run. -/
theorem C2_counterexample :
    (enqueueAll [" ", "/b"] sInit).eventually = [" ", "/b"] ∧
    cmds (run_saved_post_hooks exZero (enqueueAll [" ", "/b"] sInit)).1 =
      [" "] ∧
    (run_saved_post_hooks exZero (enqueueAll [" ", "/b"] sInit)).2 =
      Except.error PyErr.indexError :=
  ⟨rfl, rfl, rfl⟩

/-- C2: starting from an empty queue, any sequence of `_run_eventually`
registrations leaves exactly the first occurrences of the commands, in their
original order, duplicates removed; the flush then executes exactly that
sequence in that order. -/
theorem C2_enqueue_dedup (ex : Executor) (commands : List String)
    (s : HookState) (hempty : s.eventually = [])
    (htoks : ∀ c ∈ commands, firstToken c ≠ none) :
    (enqueueAll commands s).eventually = firstOccurrences commands ∧
    (run_saved_post_hooks ex (enqueueAll commands s)).2 = .ok () ∧
    cmds (run_saved_post_hooks ex (enqueueAll commands s)).1 =
      cmds s ++ firstOccurrences commands := by
  have h1 : (enqueueAll commands s).eventually = firstOccurrences commands := by
    rw [enqueueAll_eventually commands s, hempty]
    simp
  have htoks' : ∀ c ∈ firstOccurrences commands, firstToken c ≠ none :=
    fun c hc => htoks c (mem_firstOccurrences commands c hc)
  have hflush : run_saved_post_hooks ex (enqueueAll commands s) =
      runPostHookList ex (firstOccurrences commands) (enqueueAll commands s) := by
    rw [run_saved_post_hooks, h1]
  have h2 := runPostHookList_ok ex (firstOccurrences commands)
    (enqueueAll commands s) htoks'
  have h3 : cmds (enqueueAll commands s) = cmds s := by
    rw [cmds, (enqueueAll_components commands s).1, cmds]
  rw [hflush, h2.2, h3]
  exact ⟨h1, h2.1, rfl⟩

/-- C2 witness: the statement at a concrete sequence with a repeat. -/
theorem C2_witness :
    (enqueueAll ["/a", "/b", "/a"] sInit).eventually =
      firstOccurrences ["/a", "/b", "/a"] ∧
    (run_saved_post_hooks exZero (enqueueAll ["/a", "/b", "/a"] sInit)).2 =
      .ok () ∧
    cmds (run_saved_post_hooks exZero (enqueueAll ["/a", "/b", "/a"] sInit)).1 =
      cmds sInit ++ firstOccurrences ["/a", "/b", "/a"] :=
  C2_enqueue_dedup exZero ["/a", "/b", "/a"] sInit rfl (by decide)

/-! Lemmas about `list_hooks` output. -/

theorem list_hooks_sorted (fs : FS) (d : String) (hooks : List String)
    (h : list_hooks fs d = .ok hooks) :
    hooks.Pairwise (fun a b : String => a ≤ b) := by
  unfold list_hooks at h
  cases hfs : fs.listdir d with
  | none => rw [hfs] at h; exact absurd h (by simp)
  | some files =>
    rw [hfs] at h
    simp only [Except.ok.injEq] at h
    rw [← h]
    refine List.Pairwise.imp (fun hab => of_decide_eq_true hab) ?_
    apply List.sorted_mergeSort
    · exact fun a b c h1 h2 =>
        decide_eq_true (le_trans (of_decide_eq_true h1) (of_decide_eq_true h2))
    · intro a b
      rcases le_total a b with h1 | h1
      · simp [h1]
      · simp [h1]

theorem list_hooks_eq_of_sorted (fs : FS) (d : String)
    (files hooks : List String) (h1 : fs.listdir d = some files)
    (h2 : (files.map (path_join d)).filter fs.is_exe = hooks)
    (h3 : hooks.Pairwise (fun a b : String => a ≤ b)) :
    list_hooks fs d = .ok hooks := by
  unfold list_hooks
  rw [h1]
  simp only [Except.ok.injEq]
  rw [h2]
  exact List.mergeSort_of_sorted (h3.imp (fun hab => decide_eq_true hab))

/-- `list_hooks` on the concrete two-executable directory. -/
theorem fsAB_list_hooks : list_hooks fsAB "/d" = .ok ["/d/a.sh", "/d/b.sh"] := by
  apply list_hooks_eq_of_sorted fsAB "/d" ["a.sh", "b.sh"]
  · rfl
  · decide
  · refine List.Pairwise.cons ?_ (List.pairwise_singleton _ _)
    intro b hb
    rw [List.mem_singleton] at hb
    subst hb
    rw [String.le_iff_toList_le]
    decide

/-! C4: same-pass deduplication of the configured renew-hook. -/

theorem runDirDeployHooks_ok (ex : Executor) (domains : List String)
    (lineage : String) (hooks : List String) :
    ∀ (s : HookState) (acc : List String),
    (∀ h' ∈ hooks, firstToken h' ≠ none) →
    (runDirDeployHooks ex domains lineage false hooks s acc).2.2 = .ok () ∧
    cmds (runDirDeployHooks ex domains lineage false hooks s acc).1 =
      cmds s ++ hooks ∧
    (∀ x, x ∈ (runDirDeployHooks ex domains lineage false hooks s acc).2.1 ↔
      x ∈ acc ∨ x ∈ hooks) := by
  induction hooks with
  | nil =>
    intro s acc _
    exact ⟨rfl, by simp [runDirDeployHooks, cmds],
      by simp [runDirDeployHooks]⟩
  | cons h t ih =>
    intro s acc hall
    obtain ⟨tok, htok⟩ : ∃ tok, firstToken h = some tok := by
      cases hf : firstToken h with
      | none => exact absurd hf (hall h (by simp))
      | some tok => exact ⟨tok, rfl⟩
    have hstep := _run_deploy_hook_ok ex h tok domains lineage s htok
    simp only [runDirDeployHooks, hstep]
    have hrec := ih { s with
        env := deployEnv s.env domains lineage,
        log := (s.log ++ [⟨.info, "Running deploy-hook command: " ++ h⟩]) ++
          executeLog ex h tok,
        calls := s.calls ++ [⟨h, deployEnv s.env domains lineage⟩] }
      (acc.insert h) (fun c hc => hall c (by simp [hc]))
    refine ⟨hrec.1, ?_, ?_⟩
    · rw [hrec.2.1]
      simp [cmds, List.append_assoc]
    · intro x
      rw [hrec.2.2 x, List.mem_insert_iff, List.mem_cons]
      tauto

/-- C4: with directory hooks enabled and no dry run, when the configured
renew-hook string equals a path just executed from the deploy-hooks directory
(appearing there exactly once), the pass invokes the Executor exactly once in
total for that string and logs a skip message for the configured hook. -/
theorem C4_renew_hook_dedup (ex : Executor) (fs : FS) (c : Config)
    (domains : List String) (lineage_path : String) (s : HookState)
    (hooks : List String)
    (hdir : c.directory_hooks = true) (hdry : c.dry_run = false)
    (hlist : list_hooks fs c.renewal_deploy_hooks_dir = .ok hooks)
    (hcfg : c.renew_hook ≠ "")
    (hcount : hooks.count c.renew_hook = 1)
    (htoks : ∀ h' ∈ hooks, firstToken h' ≠ none) :
    (renew_hook ex fs c domains lineage_path s).2 = .ok () ∧
    (cmds (renew_hook ex fs c domains lineage_path s).1).count c.renew_hook =
      (cmds s).count c.renew_hook + 1 ∧
    (⟨.info, "Skipping deploy-hook '" ++ c.renew_hook ++
      "' as it was already run."⟩ : LogEntry) ∈
      (renew_hook ex fs c domains lineage_path s).1.log := by
  have hloop := runDirDeployHooks_ok ex domains lineage_path hooks s [] htoks
  rcases hR : runDirDeployHooks ex domains lineage_path false hooks s []
    with ⟨s1, executed, r⟩
  rw [hR] at hloop
  obtain ⟨hok, hcmds, hmem⟩ := hloop
  simp only at hok hcmds hmem
  subst hok
  have hmemr : c.renew_hook ∈ executed :=
    (hmem c.renew_hook).mpr
      (Or.inr (List.count_pos_iff.mp (by rw [hcount]; exact Nat.zero_lt_one)))
  have hres : renew_hook ex fs c domains lineage_path s =
      ({ s1 with log := s1.log ++ [⟨.info, "Skipping deploy-hook '" ++
          c.renew_hook ++ "' as it was already run."⟩] }, .ok ()) := by
    simp only [renew_hook, hdir, hdry, hlist, if_true, hR, hcfg, ne_eq,
      not_false_eq_true, ite_true, hmemr, HookState.logInfo]
  rw [hres]
  refine ⟨rfl, ?_, ?_⟩
  · show (cmds s1).count c.renew_hook = (cmds s).count c.renew_hook + 1
    rw [hcmds, List.count_append, hcount]
  · exact List.mem_append_right _ (List.mem_singleton_self _)

/-- C4 witness: the statement with concrete directory `/d` holding the
configured renew-hook `/d/a.sh`. -/
theorem C4_witness :
    (renew_hook exZero fsAB cRenew ["e.com"] "/lin" sInit).2 = .ok () ∧
    (cmds (renew_hook exZero fsAB cRenew ["e.com"] "/lin" sInit).1).count
      cRenew.renew_hook = (cmds sInit).count cRenew.renew_hook + 1 ∧
    (⟨.info, "Skipping deploy-hook '" ++ cRenew.renew_hook ++
      "' as it was already run."⟩ : LogEntry) ∈
      (renew_hook exZero fsAB cRenew ["e.com"] "/lin" sInit).1.log :=
  C4_renew_hook_dedup exZero fsAB cRenew ["e.com"] "/lin" sInit
    ["/d/a.sh", "/d/b.sh"] rfl rfl fsAB_list_hooks (by decide) (by decide)
    (by decide)

/-! C9: pre-hook gating and ordering. -/

theorem runPreHooksList_ok (ex : Executor) (hooks : List String) :
    ∀ s : HookState, hooks.Nodup →
    (∀ h' ∈ hooks, h' ∉ s.already) →
    (∀ h' ∈ hooks, firstToken h' ≠ none) →
    (runPreHooksList ex hooks s).2 = .ok () ∧
    cmds (runPreHooksList ex hooks s).1 = cmds s ++ hooks ∧
    (∀ x, x ∈ (runPreHooksList ex hooks s).1.already ↔
      x ∈ s.already ∨ x ∈ hooks) := by
  induction hooks with
  | nil =>
    intro s _ _ _
    exact ⟨rfl, by simp [runPreHooksList, cmds], by simp [runPreHooksList]⟩
  | cons h t ih =>
    intro s hnd hfresh htoks
    obtain ⟨tok, htok⟩ : ∃ tok, firstToken h = some tok := by
      cases hf : firstToken h with
      | none => exact absurd hf (htoks h (by simp))
      | some tok => exact ⟨tok, rfl⟩
    have hstep := run_pre_fresh ex h tok s (hfresh h (by simp)) htok
    simp only [runPreHooksList, hstep]
    have hfresh' : ∀ h' ∈ t, h' ∉ List.insert h s.already := by
      intro h' hh' hmem
      rcases List.mem_insert_iff.mp hmem with h1 | h2
      · exact (List.nodup_cons.mp hnd).1 (h1 ▸ hh')
      · exact hfresh h' (List.mem_cons_of_mem _ hh') h2
    have hrec := ih { s with
        already := s.already.insert h,
        calls := s.calls ++ [⟨h, s.env⟩],
        log := (s.log ++ [⟨.info, "Running pre-hook command: " ++ h⟩]) ++
          executeLog ex h tok }
      (List.nodup_cons.mp hnd).2 hfresh' (fun c hc => htoks c (by simp [hc]))
    refine ⟨hrec.1, ?_, ?_⟩
    · rw [hrec.2.1]
      simp [cmds, List.append_assoc]
    · intro x
      rw [hrec.2.2 x]
      simp only [List.mem_insert_iff, List.mem_cons]
      tauto

/-- C9: when the verb is `renew` and directory hooks are enabled, `pre_hook`
runs the directory-discovered hooks — a lexicographically sorted list — all
before the configured pre-hook is considered, and when either condition
fails, `pre_hook` reduces to running only the configured pre-hook. -/
theorem C9_pre_hook_order (ex : Executor) (fs : FS) (c : Config)
    (s : HookState) (hooks : List String)
    (hverb : c.verb = "renew") (hdir : c.directory_hooks = true)
    (hlist : list_hooks fs c.renewal_pre_hooks_dir = .ok hooks)
    (hnd : hooks.Nodup)
    (hfresh : ∀ h' ∈ hooks, h' ∉ s.already)
    (htoks : ∀ h' ∈ hooks, firstToken h' ≠ none)
    (hcmd : c.pre_hook = "" ∨ firstToken c.pre_hook ≠ none) :
    List.Sorted (fun a b : String => a ≤ b) hooks ∧
    (pre_hook ex fs c s).2 = .ok () ∧
    (cmds (pre_hook ex fs c s).1 = cmds s ++ hooks ∨
     cmds (pre_hook ex fs c s).1 = cmds s ++ hooks ++ [c.pre_hook]) ∧
    (∀ (c' : Config) (s' : HookState),
      c'.verb ≠ "renew" ∨ c'.directory_hooks = false →
      pre_hook ex fs c' s' =
        (if c'.pre_hook ≠ "" then
          _run_pre_hook_if_necessary ex c'.pre_hook s'
        else (s', .ok ()))) := by
  have hloop := runPreHooksList_ok ex hooks s hnd hfresh htoks
  rcases hR : runPreHooksList ex hooks s with ⟨s1, r⟩
  rw [hR] at hloop
  obtain ⟨hok, hcmds, hmem⟩ := hloop
  simp only at hok hcmds hmem
  subst hok
  have hphase : pre_hook_dir_phase ex fs c s = (s1, .ok ()) := by
    simp only [pre_hook_dir_phase, hverb, hdir, and_self, if_true, hlist, hR]
  have hgate : ∀ (c' : Config) (s' : HookState),
      c'.verb ≠ "renew" ∨ c'.directory_hooks = false →
      pre_hook ex fs c' s' =
        (if c'.pre_hook ≠ "" then
          _run_pre_hook_if_necessary ex c'.pre_hook s'
        else (s', .ok ())) := by
    intro c' s' hoff
    have hphase' : pre_hook_dir_phase ex fs c' s' = (s', .ok ()) := by
      rcases hoff with hoff | hoff
      · simp [pre_hook_dir_phase, hoff]
      · simp [pre_hook_dir_phase, hoff]
    simp only [pre_hook, hphase']
  refine ⟨list_hooks_sorted fs _ hooks hlist, ?_, ?_, hgate⟩
  all_goals simp only [pre_hook, hphase]
  · by_cases hce : c.pre_hook = ""
    · simp [hce]
    · rcases hcmd with hcmd | hcmd
      · exact absurd hcmd hce
      · obtain ⟨tok, htokc⟩ : ∃ tok, firstToken c.pre_hook = some tok := by
          cases hf : firstToken c.pre_hook with
          | none => exact absurd hf hcmd
          | some tok => exact ⟨tok, rfl⟩
        simp only [hce, ne_eq, not_false_eq_true, ite_true]
        by_cases hmem1 : c.pre_hook ∈ s1.already
        · rw [run_pre_skip ex _ _ hmem1]
        · rw [run_pre_fresh ex _ tok _ hmem1 htokc]
  · by_cases hce : c.pre_hook = ""
    · left
      simp only [hce, ne_eq, not_true_eq_false, ite_false]
      exact hcmds
    · rcases hcmd with hcmd | hcmd
      · exact absurd hcmd hce
      · obtain ⟨tok, htokc⟩ : ∃ tok, firstToken c.pre_hook = some tok := by
          cases hf : firstToken c.pre_hook with
          | none => exact absurd hf hcmd
          | some tok => exact ⟨tok, rfl⟩
        simp only [hce, ne_eq, not_false_eq_true, ite_true]
        by_cases hmem1 : c.pre_hook ∈ s1.already
        · left
          rw [run_pre_skip ex _ _ hmem1]
          exact hcmds
        · right
          rw [run_pre_fresh ex _ tok _ hmem1 htokc]
          show (s1.calls ++ [(⟨c.pre_hook, s1.env⟩ : Call)]).map Call.cmd = _
          rw [List.map_append]
          have h1 : s1.calls.map Call.cmd = cmds s ++ hooks := hcmds
          rw [h1]
          rfl

/-- C9 witness: the statement at the concrete renew configuration (ordering)
and the certonly configuration (gating). -/
theorem C9_witness :
    List.Sorted (fun a b : String => a ≤ b) ["/d/a.sh", "/d/b.sh"] ∧
    (pre_hook exZero fsAB cRenew sInit).2 = .ok () ∧
    (cmds (pre_hook exZero fsAB cRenew sInit).1 =
      cmds sInit ++ ["/d/a.sh", "/d/b.sh"] ∨
     cmds (pre_hook exZero fsAB cRenew sInit).1 =
      cmds sInit ++ ["/d/a.sh", "/d/b.sh"] ++ [cRenew.pre_hook]) ∧
    pre_hook exZero fsAB cCertonly sInit =
      (if cCertonly.pre_hook ≠ "" then
        _run_pre_hook_if_necessary exZero cCertonly.pre_hook sInit
      else (sInit, .ok ())) := by
  have h := C9_pre_hook_order exZero fsAB cRenew sInit ["/d/a.sh", "/d/b.sh"]
    rfl rfl fsAB_list_hooks (by decide) (by decide) (by decide)
    (Or.inr (by decide))
  exact ⟨h.1, h.2.1, h.2.2.1, h.2.2.2 cCertonly sInit (Or.inl (by decide))⟩

end Certbot
